import Mathlib

/-!
Shallow embedding of `src/aprs-decoder.py` (class `APRSPacket`): the base
address/path split, the content-type dispatch, and the uncompressed-position
sub-parser, together with theorems checking the specification's claims.

Modelling conventions:
* Python strings are `List Char`; the regex character classes are read as
  ASCII, as written in the source patterns (Unicode digits and whitespace
  are outside the modelled alphabet).
* `re.search` is leftmost search: the pattern is attempted at every start
  index in order (`reSearch`).  Each concrete pattern of the source is
  embedded as a deterministic matcher on the suffix beginning at the attempt
  position.  For these patterns greedy matching without backtracking is
  exact, because every quantified character class excludes the character the
  pattern requires next (`>` , `:` , `,` are in no class, and shrinking a
  run only exposes a class character again).
* `int(...)` on a matched digit group is `natOfDigits`; `float(...)` on a
  matched `MM.hh` group is the exact rational `floatDD` (the binary rounding
  of Python floats is abstracted away).
* `datetime.now()` (the `timestamp` field) is wall-clock input and is not
  modelled; `Packet` carries the remaining fields of `APRSPacket`.
-/

namespace Aprs

/-- The regex class `\d` (ASCII). -/
def isDigit (c : Char) : Bool :=
  c ∈ ['0', '1', '2', '3', '4', '5', '6', '7', '8', '9']

/-- The class `[A-Z0-9-]` of the source/destination fields. -/
def isAddrChar (c : Char) : Bool :=
  c ∈ "ABCDEFGHIJKLMNOPQRSTUVWXYZ0123456789-".toList

/-- The class `[A-Z0-9-*]` of the path segments. -/
def isPathChar (c : Char) : Bool := isAddrChar c || c = '*'

/-- `\s` (ASCII part); also the set removed by `str.strip()`. -/
def isPySpace (c : Char) : Bool :=
  c ∈ [' ', '\t', '\n', '\r', '\x0b', '\x0c']

/-- What `.` matches inside the patterns: any character but a newline. -/
def neNl (c : Char) : Bool := c ≠ '\n'

/-- Not the decimal point (used to split a matched `MM.hh` group). -/
def neDot (c : Char) : Bool := c ≠ '.'

/-- `str.strip()`. -/
def pyStrip (cs : List Char) : List Char :=
  ((cs.dropWhile isPySpace).reverse.dropWhile isPySpace).reverse

/-- `str.split(sep)` for a one-character separator (keeps empty pieces;
splitting the empty string gives one empty piece, as in Python). -/
def pySplit (sep : Char) : List Char → List (List Char)
  | [] => [[]]
  | c :: rest =>
    if c = sep then [] :: pySplit sep rest
    else
      match pySplit sep rest with
      | [] => [[c]]
      | h :: t => (c :: h) :: t

/-- `str.startswith` for a one-character argument. -/
def startsWithChar (a : Char) : List Char → Bool
  | [] => false
  | c :: _ => c = a

/-- Value of one ASCII digit. -/
def digitVal (c : Char) : ℕ := c.toNat - '0'.toNat

/-- `int(...)` on a digit string. -/
def natOfDigits (cs : List Char) : ℕ :=
  cs.foldl (fun a c => 10 * a + digitVal c) 0

/-- `float(...)` on the matched `MM.hh` groups: the digits before the `.`
plus the two digits after it over 100, as an exact rational. -/
def floatDD (cs : List Char) : ℚ :=
  (natOfDigits (cs.takeWhile neDot) : ℚ) +
    (natOfDigits ((cs.dropWhile neDot).drop 1) : ℚ) / 100

/-- One character out of a set (a class alternative such as `[NS]`). -/
def matchCharIn (s : List Char) : List Char → Option (Char × List Char)
  | [] => none
  | c :: rest => if c ∈ s then some (c, rest) else none

/-- One fixed character. -/
def matchChar (a : Char) : List Char → Option (List Char)
  | [] => none
  | c :: rest => if c = a then some rest else none

/-- `\d{n}`. -/
def matchDigits (n : ℕ) (cs : List Char) : Option (List Char × List Char) :=
  if (cs.take n).length = n ∧ (cs.take n).all isDigit then
    some (cs.take n, cs.drop n)
  else none

/-- `\d{2}\.\d{2}` captured as one group (the `MM.hh` minute fields). -/
def matchMinutes (cs : List Char) : Option (List Char × List Char) :=
  (matchDigits 2 cs).bind fun x1 =>
  (matchChar '.' x1.2).bind fun r2 =>
  (matchDigits 2 r2).bind fun x2 =>
  some (x1.1 ++ '.' :: x2.1, x2.2)

/-- `[class]+`, greedy (exact here: the follower is never in the class). -/
def matchPlus (p : Char → Bool) (cs : List Char) : Option (List Char × List Char) :=
  if (cs.takeWhile p).isEmpty then none
  else some (cs.takeWhile p, cs.dropWhile p)

/-- Inside group 3 (`(?:,[A-Z0-9-*]+)*`), with the current run already
started: consume the rest of the run and any further `,run` repetitions
(first component: consumed characters; second: remaining input). -/
def runTail : List Char → List Char × List Char
  | [] => ([], [])
  | c :: rest =>
    if isPathChar c then
      (c :: (runTail rest).1, (runTail rest).2)
    else if c = ',' then
      match rest with
      | [] => ([], [c])
      | d :: rest2 =>
        if isPathChar d then
          (',' :: d :: (runTail rest2).1, (runTail rest2).2)
        else ([], c :: d :: rest2)
    else ([], c :: rest)

/-- `(?:,[A-Z0-9-*]+)*` (group 3 of the base pattern), greedy. -/
def pathStar (cs : List Char) : List Char × List Char :=
  match cs with
  | c :: d :: rest =>
    if c = ',' ∧ isPathChar d then
      (',' :: d :: (runTail rest).1, (runTail rest).2)
    else ([], cs)
  | _ => ([], cs)

/-- `re.search`: attempt the pattern at every start position in order;
the leftmost successful attempt wins. -/
def reSearch {α : Type} (t : List Char → Option α) : List Char → Option α
  | [] => t []
  | c :: rest =>
    match t (c :: rest) with
    | some a => some a
    | none => reSearch t rest

/-- The four captured groups of the base pattern
`([A-Z0-9-]+)\s*>\s*([A-Z0-9-]+)((?:,[A-Z0-9-*]+)*):(.*)`. -/
structure BaseGroups where
  g1 : List Char
  g2 : List Char
  g3 : List Char
  g4 : List Char
deriving DecidableEq

/-- One attempt of the base pattern at the start of `cs`. -/
def baseTry (cs : List Char) : Option BaseGroups :=
  (matchPlus isAddrChar cs).bind fun x1 =>
  (matchChar '>' (x1.2.dropWhile isPySpace)).bind fun r2 =>
  (matchPlus isAddrChar (r2.dropWhile isPySpace)).bind fun x3 =>
  (matchChar ':' (pathStar x3.2).2).bind fun r5 =>
  some ⟨x1.1, x3.1, (pathStar x3.2).1, r5.takeWhile neNl⟩

/-- `re.search` of the base pattern (line 35 of the source). -/
def baseSearch : List Char → Option BaseGroups := reSearch baseTry

/-- The groups of the position pattern
`[!=](\d{2})(\d{2}\.\d{2})([NS])/(\d{3})(\d{2}\.\d{2})([EW])`, together
with the remainder of the content after the matched text. -/
structure PosGroups where
  latDeg : List Char
  latMin : List Char
  latDir : Char
  lonDeg : List Char
  lonMin : List Char
  lonDir : Char
  rest : List Char
deriving DecidableEq

/-- One attempt of the position pattern at the start of `cs`. -/
def posTry (cs : List Char) : Option PosGroups :=
  (matchCharIn ['!', '='] cs).bind fun x0 =>
  (matchDigits 2 x0.2).bind fun x1 =>
  (matchMinutes x1.2).bind fun x2 =>
  (matchCharIn ['N', 'S'] x2.2).bind fun x3 =>
  (matchChar '/' x3.2).bind fun r4 =>
  (matchDigits 3 r4).bind fun x5 =>
  (matchMinutes x5.2).bind fun x6 =>
  (matchCharIn ['E', 'W'] x6.2).bind fun x7 =>
  some ⟨x1.1, x2.1, x3.1, x5.1, x6.1, x7.1, x7.2⟩

/-- `re.search` of the position pattern (line 73 of the source). -/
def posSearch : List Char → Option PosGroups := reSearch posTry

/-- One attempt of `[NS]/\d{3}\d{2}\.\d{2}[EW](.*)`: on success, group 1
(the text the source takes as the comment tail). -/
def afterTry (cs : List Char) : Option (List Char) :=
  (matchCharIn ['N', 'S'] cs).bind fun x0 =>
  (matchChar '/' x0.2).bind fun r1 =>
  (matchDigits 3 r1).bind fun x2 =>
  (matchDigits 2 x2.2).bind fun x3 =>
  (matchChar '.' x3.2).bind fun r4 =>
  (matchDigits 2 r4).bind fun x5 =>
  (matchCharIn ['E', 'W'] x5.2).bind fun x6 =>
  some (x6.2.takeWhile neNl)

/-- `re.search` of the comment-tail pattern (line 94 of the source). -/
def afterSearch : List Char → Option (List Char) := reSearch afterTry

/-- The decoded record (`APRSPacket.__init__` fields; `timestamp` is not
modelled). -/
structure Packet where
  raw : List Char
  source : List Char
  destination : List Char
  path : List (List Char)
  message_type : String
  latitude : Option ℚ
  longitude : Option ℚ
  comment : List Char
deriving DecidableEq

/-- The zero-value defaults of `APRSPacket.__init__`. -/
def defaultPacket (raw : List Char) : Packet :=
  ⟨raw, [], [], [], "", none, none, []⟩

/-- `APRSPacket._parse_position` (lines 67-98 of the source). -/
def parsePos (p : Packet) (content : List Char) : Packet :=
  match posSearch content with
  | none => p
  | some g =>
    let lat0 : ℚ := (natOfDigits g.latDeg : ℚ) + floatDD g.latMin / 60
    let lat : ℚ := if g.latDir = 'S' then -lat0 else lat0
    let lon0 : ℚ := (natOfDigits g.lonDeg : ℚ) + floatDD g.lonMin / 60
    let lon : ℚ := if g.lonDir = 'W' then -lon0 else lon0
    let p1 := { p with latitude := some lat, longitude := some lon }
    match afterSearch content with
    | none => p1
    | some tail => { p1 with comment := pyStrip tail }

/-- The content-type dispatch of `APRSPacket.parse` (lines 49-63), as a
function of the trimmed content. -/
def classify (content : List Char) : String :=
  if startsWithChar '!' content || startsWithChar '=' content then "Position"
  else if startsWithChar '>' content then "Status"
  else if startsWithChar ':' content then "Message"
  else if startsWithChar 'T' content then "Telemetry"
  else "Other"

/-- `APRSPacket.parse` (lines 31-63 of the source). -/
def parse (p : Packet) : Packet :=
  match baseSearch p.raw with
  | none => p
  | some g =>
    let p1 : Packet :=
      { p with
        source := g.g1
        destination := g.g2
        path := if g.g3.isEmpty then p.path else pySplit ',' (g.g3.drop 1) }
    let content := pyStrip g.g4
    if startsWithChar '!' content || startsWithChar '=' content then
      parsePos { p1 with message_type := "Position" } content
    else if startsWithChar '>' content then
      { p1 with message_type := "Status", comment := pyStrip (content.drop 1) }
    else if startsWithChar ':' content then
      { p1 with message_type := "Message", comment := pyStrip (content.drop 1) }
    else if startsWithChar 'T' content then
      { p1 with message_type := "Telemetry", comment := pyStrip content }
    else
      { p1 with message_type := "Other", comment := pyStrip content }

/-- `APRSPacket(raw_packet)`: defaults, then `parse`. -/
def decode (raw : List Char) : Packet := parse (defaultPacket raw)

/-- Spec-side definition (§8 round-trip wording): the whole-degrees part
produced by re-encoding a decoded decimal-degrees coordinate. -/
def reencodeDeg (q : ℚ) : ℤ := ⌊|q|⌋

/-- Spec-side definition (§8 round-trip wording): the fractional-minutes
part produced by re-encoding a decoded decimal-degrees coordinate. -/
def reencodeMin (q : ℚ) : ℚ := (|q| - ⌊|q|⌋) * 60

/-- Shape of the text matched by `(?:,[A-Z0-9-*]+)*`: a concatenation of
`,run` segments whose runs are nonempty strings of path characters. -/
inductive PathShape : List Char → Prop
  | nil : PathShape []
  | seg (run more : List Char) (h1 : run ≠ []) (h2 : run.all isPathChar = true)
      (h3 : PathShape more) : PathShape (',' :: (run ++ more))

/-! ### Leftmost-search characterisation -/

/-- A successful `reSearch` comes from a successful attempt at some index. -/
theorem reSearch_eq_some {α : Type} {t : List Char → Option α} {cs : List Char} {a : α}
    (h : reSearch t cs = some a) : ∃ n, t (cs.drop n) = some a := by
  induction cs with
  | nil => exact ⟨0, h⟩
  | cons c rest ih =>
    rw [reSearch] at h
    cases h0 : t (c :: rest) with
    | some b =>
      rw [h0] at h
      exact ⟨0, by rw [List.drop_zero, h0]; exact h⟩
    | none =>
      rw [h0] at h
      obtain ⟨n, hn⟩ := ih h
      exact ⟨n + 1, by rw [List.drop_succ_cons]; exact hn⟩

/-- If some attempt succeeds, `reSearch` succeeds, at an index no later
than the given one. -/
theorem reSearch_of_occur {α : Type} {t : List Char → Option α} {cs : List Char} {n : ℕ} {a : α}
    (h : t (cs.drop n) = some a) :
    ∃ m b, m ≤ n ∧ reSearch t cs = some b ∧ t (cs.drop m) = some b := by
  induction cs generalizing n with
  | nil =>
    simp only [List.drop_nil] at h
    refine ⟨0, a, Nat.zero_le n, ?_, ?_⟩
    · rw [reSearch]; exact h
    · exact h
  | cons c rest ih =>
    cases h0 : t (c :: rest) with
    | some b =>
      exact ⟨0, b, Nat.zero_le n, by rw [reSearch, h0], by rw [List.drop_zero]; exact h0⟩
    | none =>
      cases n with
      | zero =>
        rw [List.drop_zero, h0] at h
        exact Option.noConfusion h
      | succ k =>
        rw [List.drop_succ_cons] at h
        obtain ⟨m, b, hm, hs, ht⟩ := ih h
        refine ⟨m + 1, b, Nat.succ_le_succ hm, ?_, ?_⟩
        · rw [reSearch, h0]; exact hs
        · rw [List.drop_succ_cons]; exact ht

/-! ### Matcher inversions -/

theorem matchCharIn_eq_some {s cs : List Char} {c : Char} {r : List Char}
    (h : matchCharIn s cs = some (c, r)) : cs = c :: r ∧ c ∈ s := by
  cases cs with
  | nil => simp [matchCharIn] at h
  | cons d rest =>
    rw [matchCharIn] at h
    split_ifs at h with hd
    · simp only [Option.some.injEq, Prod.mk.injEq] at h
      obtain ⟨h1, h2⟩ := h
      subst h1; subst h2
      exact ⟨rfl, hd⟩

theorem matchChar_eq_some {a : Char} {cs r : List Char}
    (h : matchChar a cs = some r) : cs = a :: r := by
  cases cs with
  | nil => simp [matchChar] at h
  | cons d rest =>
    rw [matchChar] at h
    split_ifs at h with hd
    · simp only [Option.some.injEq] at h
      subst hd; subst h; rfl

theorem matchDigits_eq_some {n : ℕ} {cs ds r : List Char}
    (h : matchDigits n cs = some (ds, r)) :
    ds = cs.take n ∧ r = cs.drop n ∧ ds.length = n ∧ ds.all isDigit = true ∧
      cs = ds ++ r := by
  rw [matchDigits] at h
  split_ifs at h with hc
  · simp only [Option.some.injEq, Prod.mk.injEq] at h
    obtain ⟨h1, h2⟩ := h
    subst h1; subst h2
    exact ⟨rfl, rfl, hc.1, hc.2, (List.take_append_drop n cs).symm⟩

theorem matchMinutes_eq_some {cs m r : List Char}
    (h : matchMinutes cs = some (m, r)) :
    ∃ a s1 s2 b, matchDigits 2 cs = some (a, s1) ∧ matchChar '.' s1 = some s2 ∧
      matchDigits 2 s2 = some (b, r) ∧ m = a ++ '.' :: b ∧
      a.length = 2 ∧ a.all isDigit = true ∧ b.length = 2 ∧ b.all isDigit = true ∧
      r = cs.drop 5 := by
  rw [matchMinutes] at h
  rw [Option.bind_eq_some] at h
  obtain ⟨⟨a, s1⟩, h1, h⟩ := h
  rw [Option.bind_eq_some] at h
  obtain ⟨s2, h2, h⟩ := h
  rw [Option.bind_eq_some] at h
  obtain ⟨⟨b, r2⟩, h3, h⟩ := h
  simp only [Option.some.injEq, Prod.mk.injEq] at h
  obtain ⟨hm, hr⟩ := h
  subst hr
  obtain ⟨ha1, ha2, ha3, ha4, -⟩ := matchDigits_eq_some h1
  obtain ⟨hb1, hb2, hb3, hb4, -⟩ := matchDigits_eq_some h3
  have hs1 : s1 = '.' :: s2 := matchChar_eq_some h2
  refine ⟨a, s1, s2, b, h1, h2, h3, hm.symm, ha3, ha4, hb3, hb4, ?_⟩
  have hs2 : s2 = (cs.drop 2).drop 1 := by rw [← ha2, hs1]; rfl
  rw [hb2, hs2]
  simp [List.drop_drop]

/-! ### Digit strings and `floatDD` -/

theorem digitVal_le_nine {c : Char} (h : isDigit c = true) : digitVal c ≤ 9 := by
  simp only [isDigit, List.mem_cons, List.not_mem_nil, or_false, decide_eq_true_eq] at h
  rcases h with rfl | rfl | rfl | rfl | rfl | rfl | rfl | rfl | rfl | rfl <;> decide

theorem digit_ne_dot {c : Char} (h : isDigit c = true) : c ≠ '.' := by
  simp only [isDigit, List.mem_cons, List.not_mem_nil, or_false, decide_eq_true_eq] at h
  rcases h with rfl | rfl | rfl | rfl | rfl | rfl | rfl | rfl | rfl | rfl <;> decide

theorem natOfDigits_foldl_lt (cs : List Char) (h : cs.all isDigit = true) :
    ∀ a : ℕ, cs.foldl (fun x c => 10 * x + digitVal c) a < (a + 1) * 10 ^ cs.length := by
  induction cs with
  | nil => intro a; simp only [List.foldl_nil, List.length_nil, pow_zero, Nat.mul_one]; exact Nat.lt_succ_self a
  | cons c t ih =>
    rw [List.all_cons, Bool.and_eq_true] at h
    intro a
    have h9 : digitVal c ≤ 9 := digitVal_le_nine h.1
    have ht := ih h.2 (10 * a + digitVal c)
    calc (c :: t).foldl (fun x c => 10 * x + digitVal c) a
        = t.foldl (fun x c => 10 * x + digitVal c) (10 * a + digitVal c) := rfl
      _ < (10 * a + digitVal c + 1) * 10 ^ t.length := ht
      _ ≤ (a + 1) * 10 ^ (c :: t).length := by
          rw [List.length_cons, pow_succ]
          have hle : 10 * a + digitVal c + 1 ≤ (a + 1) * 10 := by omega
          calc (10 * a + digitVal c + 1) * 10 ^ t.length
              ≤ ((a + 1) * 10) * 10 ^ t.length := Nat.mul_le_mul_right _ hle
            _ = (a + 1) * (10 ^ t.length * 10) := by ring

theorem natOfDigits_lt (cs : List Char) (h : cs.all isDigit = true) :
    natOfDigits cs < 10 ^ cs.length := by
  simpa using natOfDigits_foldl_lt cs h 0

theorem takeWhile_neDot_append {a : List Char} (b : List Char)
    (ha : ∀ c ∈ a, c ≠ '.') : (a ++ '.' :: b).takeWhile neDot = a := by
  induction a with
  | nil =>
    rw [List.nil_append, List.takeWhile_cons_of_neg]
    simp [neDot]
  | cons c t ih =>
    have hc : neDot c = true := by
      have hne := ha c (List.mem_cons_self c t)
      simp [neDot, hne]
    rw [List.cons_append, List.takeWhile_cons_of_pos hc,
      ih (fun x hx => ha x (List.mem_cons_of_mem c hx))]

theorem dropWhile_neDot_append {a : List Char} (b : List Char)
    (ha : ∀ c ∈ a, c ≠ '.') : (a ++ '.' :: b).dropWhile neDot = '.' :: b := by
  induction a with
  | nil =>
    rw [List.nil_append, List.dropWhile_cons_of_neg]
    simp [neDot]
  | cons c t ih =>
    have hc : neDot c = true := by
      have hne := ha c (List.mem_cons_self c t)
      simp [neDot, hne]
    rw [List.cons_append, List.dropWhile_cons_of_pos hc,
      ih (fun x hx => ha x (List.mem_cons_of_mem c hx))]

theorem floatDD_decomp {a : List Char} (b : List Char) (ha : a.all isDigit = true) :
    floatDD (a ++ '.' :: b) = (natOfDigits a : ℚ) + (natOfDigits b : ℚ) / 100 := by
  have hd : ∀ c ∈ a, c ≠ '.' := fun c hc =>
    digit_ne_dot (List.all_eq_true.mp ha c hc)
  rw [floatDD, takeWhile_neDot_append b hd, dropWhile_neDot_append b hd]
  simp

theorem floatDD_nonneg (cs : List Char) : 0 ≤ floatDD cs := by
  rw [floatDD]
  exact add_nonneg (Nat.cast_nonneg _) (div_nonneg (Nat.cast_nonneg _) (by norm_num))

/-! ### Inversion of the position and comment-tail patterns -/

/-- A successful position attempt constrains every captured group. -/
theorem posTry_fields {l : List Char} {g : PosGroups} (h : posTry l = some g) :
    g.latDeg.length = 2 ∧ g.latDeg.all isDigit = true ∧
    (∃ a b, g.latMin = a ++ '.' :: b ∧ a.length = 2 ∧ a.all isDigit = true ∧
      b.length = 2 ∧ b.all isDigit = true) ∧
    (g.latDir = 'N' ∨ g.latDir = 'S') ∧
    g.lonDeg.length = 3 ∧ g.lonDeg.all isDigit = true ∧
    (∃ a b, g.lonMin = a ++ '.' :: b ∧ a.length = 2 ∧ a.all isDigit = true ∧
      b.length = 2 ∧ b.all isDigit = true) ∧
    (g.lonDir = 'E' ∨ g.lonDir = 'W') := by
  rw [posTry] at h
  rw [Option.bind_eq_some] at h
  obtain ⟨⟨c0, r0⟩, h0, h⟩ := h
  rw [Option.bind_eq_some] at h
  obtain ⟨⟨latDeg, r1⟩, h1, h⟩ := h
  rw [Option.bind_eq_some] at h
  obtain ⟨⟨latMin, r2⟩, h2, h⟩ := h
  rw [Option.bind_eq_some] at h
  obtain ⟨⟨latDir, r3⟩, h3, h⟩ := h
  rw [Option.bind_eq_some] at h
  obtain ⟨r4, h4, h⟩ := h
  rw [Option.bind_eq_some] at h
  obtain ⟨⟨lonDeg, r5⟩, h5, h⟩ := h
  rw [Option.bind_eq_some] at h
  obtain ⟨⟨lonMin, r6⟩, h6, h⟩ := h
  rw [Option.bind_eq_some] at h
  obtain ⟨⟨lonDir, r7⟩, h7, h⟩ := h
  simp only [Option.some.injEq] at h
  subst h
  obtain ⟨-, -, hl1, hl2, -⟩ := matchDigits_eq_some h1
  obtain ⟨a1, s1, s2, b1, -, -, -, hmin1, ha1, ha2, hb1, hb2, -⟩ := matchMinutes_eq_some h2
  obtain ⟨-, hdir1⟩ := matchCharIn_eq_some h3
  obtain ⟨-, -, ho1, ho2, -⟩ := matchDigits_eq_some h5
  obtain ⟨a2, s3, s4, b2, -, -, -, hmin2, hc1, hc2, hd1, hd2, -⟩ := matchMinutes_eq_some h6
  obtain ⟨-, hdir2⟩ := matchCharIn_eq_some h7
  simp only [List.mem_cons, List.not_mem_nil, or_false] at hdir1 hdir2
  exact ⟨hl1, hl2, ⟨a1, b1, hmin1, ha1, ha2, hb1, hb2⟩, hdir1, ho1, ho2,
    ⟨a2, b2, hmin2, hc1, hc2, hd1, hd2⟩, hdir2⟩

/-- The `[NS]/...` part of a successful position attempt is itself a
successful comment-tail attempt 8 characters in, with the same remainder
(which sits 19 characters past the attempt position). -/
theorem posTry_afterTry {l : List Char} {g : PosGroups} (h : posTry l = some g) :
    afterTry (l.drop 8) = some (g.rest.takeWhile neNl) ∧ g.rest = l.drop 19 := by
  rw [posTry] at h
  rw [Option.bind_eq_some] at h
  obtain ⟨⟨c0, r0⟩, h0, h⟩ := h
  rw [Option.bind_eq_some] at h
  obtain ⟨⟨latDeg, r1⟩, h1, h⟩ := h
  rw [Option.bind_eq_some] at h
  obtain ⟨⟨latMin, r2⟩, h2, h⟩ := h
  rw [Option.bind_eq_some] at h
  obtain ⟨⟨latDir, r3⟩, h3, h⟩ := h
  rw [Option.bind_eq_some] at h
  obtain ⟨r4, h4, h⟩ := h
  rw [Option.bind_eq_some] at h
  obtain ⟨⟨lonDeg, r5⟩, h5, h⟩ := h
  rw [Option.bind_eq_some] at h
  obtain ⟨⟨lonMin, r6⟩, h6, h⟩ := h
  rw [Option.bind_eq_some] at h
  obtain ⟨⟨lonDir, r7⟩, h7, h⟩ := h
  simp only [Option.some.injEq] at h
  subst h
  dsimp only at h0 h1 h2 h3 h4 h5 h6 h7
  have hl : l = c0 :: r0 := (matchCharIn_eq_some h0).1
  have hr1 : r1 = r0.drop 2 := (matchDigits_eq_some h1).2.1
  obtain ⟨a1, s1, s2, b1, -, -, -, -, -, -, -, -, hr2⟩ := matchMinutes_eq_some h2
  obtain ⟨a2, s3, s4, b2, hi1, hi2, hi3, -, -, -, -, -, hr6⟩ := matchMinutes_eq_some h6
  have hd1 : l.drop 1 = r0 := by rw [hl]; rfl
  have h8 : l.drop 8 = r2 := by
    have e1 : l.drop 8 = (l.drop 1).drop 7 := by rw [List.drop_drop]
    rw [e1, hd1, hr2, hr1, List.drop_drop]
  have k3 : r3 = r2.drop 1 := by rw [(matchCharIn_eq_some h3).1]; rfl
  have k4 : r4 = r3.drop 1 := by rw [matchChar_eq_some h4]; rfl
  have k5 : r5 = r4.drop 3 := (matchDigits_eq_some h5).2.1
  have k7 : r7 = r6.drop 1 := by rw [(matchCharIn_eq_some h7).1]; rfl
  constructor
  · rw [h8, afterTry]
    simp only [h3, h4, h5, hi1, hi2, hi3, h7, Option.some_bind]
  · rw [k7, hr6, k5, k4, k3, ← h8]
    simp [List.drop_drop]

/-- A successful comment-tail attempt returns the non-newline prefix of
everything 11 characters past the attempt position. -/
theorem afterTry_eq_some {l t : List Char} (h : afterTry l = some t) :
    t = (l.drop 11).takeWhile neNl := by
  rw [afterTry] at h
  rw [Option.bind_eq_some] at h
  obtain ⟨⟨ns, q0⟩, h0, h⟩ := h
  rw [Option.bind_eq_some] at h
  obtain ⟨q1, h1, h⟩ := h
  rw [Option.bind_eq_some] at h
  obtain ⟨⟨d3, q2⟩, h2, h⟩ := h
  rw [Option.bind_eq_some] at h
  obtain ⟨⟨d2, q3⟩, h3, h⟩ := h
  rw [Option.bind_eq_some] at h
  obtain ⟨q4, h4, h⟩ := h
  rw [Option.bind_eq_some] at h
  obtain ⟨⟨d5, q5⟩, h5, h⟩ := h
  rw [Option.bind_eq_some] at h
  obtain ⟨⟨ew, q6⟩, h6, h⟩ := h
  simp only [Option.some.injEq] at h
  subst h
  dsimp only at h0 h1 h2 h3 h4 h5 h6
  have e0 : q0 = l.drop 1 := by rw [(matchCharIn_eq_some h0).1]; rfl
  have e1 : q1 = q0.drop 1 := by rw [matchChar_eq_some h1]; rfl
  have e2 : q2 = q1.drop 3 := (matchDigits_eq_some h2).2.1
  have e3 : q3 = q2.drop 2 := (matchDigits_eq_some h3).2.1
  have e4 : q4 = q3.drop 1 := by rw [matchChar_eq_some h4]; rfl
  have e5 : q5 = q4.drop 2 := (matchDigits_eq_some h5).2.1
  have e6 : q6 = q5.drop 1 := by rw [(matchCharIn_eq_some h6).1]; rfl
  rw [e6, e5, e4, e3, e2, e1, e0]
  simp [List.drop_drop]

/-! ### Unfolding `parsePos`, `parse` and `decode` -/

theorem parsePos_preserves (p : Packet) (content : List Char) :
    (parsePos p content).raw = p.raw ∧ (parsePos p content).source = p.source ∧
    (parsePos p content).destination = p.destination ∧
    (parsePos p content).path = p.path ∧
    (parsePos p content).message_type = p.message_type := by
  rw [parsePos]
  cases posSearch content with
  | none => exact ⟨rfl, rfl, rfl, rfl, rfl⟩
  | some g =>
    cases afterSearch content with
    | none => exact ⟨rfl, rfl, rfl, rfl, rfl⟩
    | some tail => exact ⟨rfl, rfl, rfl, rfl, rfl⟩

theorem parsePos_none {content : List Char} (p : Packet)
    (h : posSearch content = none) : parsePos p content = p := by
  rw [parsePos, h]

theorem parsePos_latitude {content : List Char} {g : PosGroups} (p : Packet)
    (h : posSearch content = some g) :
    (parsePos p content).latitude =
      some (if g.latDir = 'S' then -((natOfDigits g.latDeg : ℚ) + floatDD g.latMin / 60)
            else (natOfDigits g.latDeg : ℚ) + floatDD g.latMin / 60) := by
  rw [parsePos, h]
  cases afterSearch content with
  | none => rfl
  | some tail => rfl

theorem parsePos_longitude {content : List Char} {g : PosGroups} (p : Packet)
    (h : posSearch content = some g) :
    (parsePos p content).longitude =
      some (if g.lonDir = 'W' then -((natOfDigits g.lonDeg : ℚ) + floatDD g.lonMin / 60)
            else (natOfDigits g.lonDeg : ℚ) + floatDD g.lonMin / 60) := by
  rw [parsePos, h]
  cases afterSearch content with
  | none => rfl
  | some tail => rfl

theorem parsePos_comment {content : List Char} {g : PosGroups} {tail : List Char} (p : Packet)
    (h : posSearch content = some g) (ha : afterSearch content = some tail) :
    (parsePos p content).comment = pyStrip tail := by
  rw [parsePos, h, ha]

theorem decode_none {raw : List Char} (hb : baseSearch raw = none) :
    decode raw = defaultPacket raw := by
  rw [decode, parse, show (defaultPacket raw).raw = raw from rfl, hb]

theorem decode_some {raw : List Char} {g : BaseGroups} {p1 : Packet} {content : List Char}
    (hb : baseSearch raw = some g)
    (hp1 : p1 = ⟨raw, g.g1, g.g2,
      if g.g3.isEmpty then [] else pySplit ',' (g.g3.drop 1), "", none, none, []⟩)
    (hc : content = pyStrip g.g4) :
    decode raw =
      if startsWithChar '!' content || startsWithChar '=' content then
        parsePos { p1 with message_type := "Position" } content
      else if startsWithChar '>' content then
        { p1 with message_type := "Status", comment := pyStrip (content.drop 1) }
      else if startsWithChar ':' content then
        { p1 with message_type := "Message", comment := pyStrip (content.drop 1) }
      else if startsWithChar 'T' content then
        { p1 with message_type := "Telemetry", comment := pyStrip content }
      else { p1 with message_type := "Other", comment := pyStrip content } := by
  subst hp1; subst hc
  rw [decode, parse, show (defaultPacket raw).raw = raw from rfl, hb]
  rfl

theorem decode_raw (raw : List Char) : (decode raw).raw = raw := by
  cases hb : baseSearch raw with
  | none => rw [decode_none hb]; rfl
  | some g =>
    rw [decode_some hb rfl rfl]
    split_ifs <;> first | rfl | exact (parsePos_preserves _ _).1

theorem decode_path {raw : List Char} {g : BaseGroups} (hb : baseSearch raw = some g) :
    (decode raw).path = if g.g3.isEmpty then [] else pySplit ',' (g.g3.drop 1) := by
  rw [decode_some hb rfl rfl]
  split_ifs <;> first | rfl | exact (parsePos_preserves _ _).2.2.2.1

/-! ### Shape of group 3 and `str.split` -/

theorem pathChar_ne_comma {c : Char} (h : isPathChar c = true) : c ≠ ',' := by
  intro he
  subst he
  exact absurd h (by decide)

theorem runTail_shape (cs : List Char) :
    ∃ run more, (runTail cs).1 = run ++ more ∧ run.all isPathChar = true ∧
      PathShape more := by
  induction cs using runTail.induct with
  | case1 => exact ⟨[], [], rfl, rfl, PathShape.nil⟩
  | case2 c rest hc ih =>
    obtain ⟨run, more, h1, h2, h3⟩ := ih
    refine ⟨c :: run, more, ?_, by simp [hc, h2], h3⟩
    rw [runTail.eq_def]
    dsimp only
    rw [if_pos hc]
    dsimp only
    rw [h1]
    simp
  | case3 h => exact ⟨[], [], rfl, rfl, PathShape.nil⟩
  | case4 c rest hc hnc ih =>
    obtain ⟨run, more, h1, h2, h3⟩ := ih
    refine ⟨[], ',' :: ((c :: run) ++ more), ?_, rfl, ?_⟩
    · rw [runTail.eq_def]
      dsimp only
      rw [if_neg (by decide : ¬ isPathChar ',' = true), if_pos rfl, if_pos hc]
      dsimp only
      rw [h1]
      simp
    · exact PathShape.seg (c :: run) more (by simp) (by simp [hc, h2]) h3
  | case5 c rest hc hnc =>
    refine ⟨[], [], ?_, rfl, PathShape.nil⟩
    rw [runTail.eq_def]
    dsimp only
    rw [if_neg (by decide : ¬ isPathChar ',' = true), if_pos rfl, if_neg hc]
    rfl
  | case6 c rest hc hne =>
    refine ⟨[], [], ?_, rfl, PathShape.nil⟩
    rw [runTail.eq_def]
    dsimp only
    rw [if_neg hc, if_neg hne]
    rfl

theorem pathStar_shape (cs : List Char) : PathShape (pathStar cs).1 := by
  rcases cs with - | ⟨c, - | ⟨d, rest⟩⟩
  · exact PathShape.nil
  · exact PathShape.nil
  · rw [pathStar]
    split_ifs with h
    · obtain ⟨run, more, h1, h2, h3⟩ := runTail_shape rest
      dsimp only
      rw [h1]
      exact PathShape.seg (d :: run) more (by simp) (by simp [h.2, h2]) h3
    · exact PathShape.nil

theorem pySplit_sepFree {sep : Char} {l : List Char} (h : ∀ c ∈ l, c ≠ sep) :
    pySplit sep l = [l] := by
  induction l with
  | nil => rfl
  | cons c t ih =>
    rw [pySplit, if_neg (h c (List.mem_cons_self c t)),
      ih (fun x hx => h x (List.mem_cons_of_mem c hx))]

theorem pySplit_append_sep {sep : Char} {l r : List Char} (h : ∀ c ∈ l, c ≠ sep) :
    pySplit sep (l ++ sep :: r) = l :: pySplit sep r := by
  induction l with
  | nil => rw [List.nil_append, pySplit, if_pos rfl]
  | cons c t ih =>
    rw [List.cons_append, pySplit, if_neg (h c (List.mem_cons_self c t)),
      ih (fun x hx => h x (List.mem_cons_of_mem c hx))]

theorem pathShape_elements {g : List Char} (hs : PathShape g) (hne : g ≠ []) :
    ∀ l ∈ pySplit ',' (g.drop 1), l ≠ [] ∧ l.all isPathChar = true := by
  induction hs with
  | nil => exact absurd rfl hne
  | seg run more h1 h2 h3 ih =>
    intro l hl
    rw [show ((',' :: (run ++ more)).drop 1) = run ++ more from rfl] at hl
    have hrun : ∀ c ∈ run, c ≠ ',' := fun c hc =>
      pathChar_ne_comma (List.all_eq_true.mp h2 c hc)
    cases h3 with
    | nil =>
      rw [List.append_nil, pySplit_sepFree hrun] at hl
      simp only [List.mem_cons, List.not_mem_nil, or_false] at hl
      subst hl
      exact ⟨h1, h2⟩
    | seg run2 more2 g1 g2 g3 =>
      rw [pySplit_append_sep hrun] at hl
      rcases List.mem_cons.mp hl with hl | hl
      · subst hl
        exact ⟨h1, h2⟩
      · exact ih (by simp) l hl

theorem baseTry_g3 {l : List Char} {g : BaseGroups} (h : baseTry l = some g) :
    PathShape g.g3 := by
  rw [baseTry] at h
  rw [Option.bind_eq_some] at h
  obtain ⟨⟨g1, r1⟩, h1, h⟩ := h
  rw [Option.bind_eq_some] at h
  obtain ⟨r2, h2, h⟩ := h
  rw [Option.bind_eq_some] at h
  obtain ⟨⟨g2, r3⟩, h3, h⟩ := h
  rw [Option.bind_eq_some] at h
  obtain ⟨r5, h5, h⟩ := h
  simp only [Option.some.injEq] at h
  subst h
  exact pathStar_shape _

theorem baseSearch_g3 {raw : List Char} {g : BaseGroups}
    (hb : baseSearch raw = some g) : PathShape g.g3 := by
  obtain ⟨n, hn⟩ := reSearch_eq_some hb
  exact baseTry_g3 hn

theorem decode_message_type (raw : List Char) :
    (decode raw).message_type =
      (match baseSearch raw with
       | none => ""
       | some g => classify (pyStrip g.g4)) := by
  cases hb : baseSearch raw with
  | none => rw [decode_none hb]; rfl
  | some g =>
    rw [decode_some hb rfl rfl]
    simp only [classify]
    split_ifs <;> first | rfl | exact (parsePos_preserves _ _).2.2.2.2


/-! ### Remaining shared helpers -/

theorem takeWhile_neNl_eq {l : List Char} (h : '\n' ∉ l) : l.takeWhile neNl = l := by
  induction l with
  | nil => rfl
  | cons c t ih =>
    have hcne : c ≠ '\n' := fun he => h (he ▸ List.mem_cons_self c t)
    have hc : neNl c = true := by simp [neNl, hcne]
    rw [List.takeWhile_cons_of_pos hc, ih (fun hm => h (List.mem_cons_of_mem c hm))]

theorem natOfDigits_le_of_two {cs : List Char} (hlen : cs.length = 2)
    (hdig : cs.all isDigit = true) : natOfDigits cs ≤ 99 := by
  have hlt := natOfDigits_lt cs hdig
  rw [hlen] at hlt
  norm_num at hlt
  omega

theorem natOfDigits_le_of_three {cs : List Char} (hlen : cs.length = 3)
    (hdig : cs.all isDigit = true) : natOfDigits cs ≤ 999 := by
  have hlt := natOfDigits_lt cs hdig
  rw [hlen] at hlt
  norm_num at hlt
  omega

theorem floatDD_le {m a b : List Char} (hab : m = a ++ '.' :: b)
    (ha1 : a.length = 2) (ha2 : a.all isDigit = true)
    (hb1 : b.length = 2) (hb2 : b.all isDigit = true) :
    floatDD m ≤ 9999 / 100 := by
  rw [hab, floatDD_decomp b ha2]
  have hA : (natOfDigits a : ℚ) ≤ 99 := by exact_mod_cast natOfDigits_le_of_two ha1 ha2
  have hB : (natOfDigits b : ℚ) ≤ 99 := by exact_mod_cast natOfDigits_le_of_two hb1 hb2
  have hB0 : (0 : ℚ) ≤ (natOfDigits b : ℚ) := Nat.cast_nonneg _
  linarith

/-- Evaluation helper for `floatDD` on concrete minute strings. -/
theorem floatDD_eval (cs a b : List Char) (x y : ℕ)
    (h1 : cs.takeWhile neDot = a) (h2 : (cs.dropWhile neDot).drop 1 = b)
    (hx : natOfDigits a = x) (hy : natOfDigits b = y) :
    floatDD cs = (x : ℚ) + (y : ℚ) / 100 := by
  rw [floatDD, h1, h2, hx, hy]

/-- Re-encoding (spec wording) is exact on `degrees + minutes/60` whenever
the minutes value is below 60, for either sign. -/
theorem reencode_exact (D : ℕ) {m : ℚ} (h0 : 0 ≤ m) (h60 : m < 60) :
    reencodeDeg ((D : ℚ) + m / 60) = (D : ℤ) ∧
    reencodeMin ((D : ℚ) + m / 60) = m ∧
    reencodeDeg (-((D : ℚ) + m / 60)) = (D : ℤ) ∧
    reencodeMin (-((D : ℚ) + m / 60)) = m := by
  have hM0 : 0 ≤ (D : ℚ) + m / 60 := by positivity
  have habs : |(D : ℚ) + m / 60| = (D : ℚ) + m / 60 := abs_of_nonneg hM0
  have habs2 : |(-((D : ℚ) + m / 60))| = (D : ℚ) + m / 60 := by rw [abs_neg]; exact habs
  have hfl : ⌊(D : ℚ) + m / 60⌋ = (D : ℤ) := by
    rw [Int.floor_eq_iff]
    constructor
    · push_cast
      linarith
    · push_cast
      linarith
  refine ⟨?_, ?_, ?_, ?_⟩
  · rw [reencodeDeg, habs, hfl]
  · rw [reencodeMin, habs, hfl]
    push_cast
    ring
  · rw [reencodeDeg, habs2, hfl]
  · rw [reencodeMin, habs2, hfl]
    push_cast
    ring

/-- Coordinates of a decoded Position record, in terms of the matched
groups. -/
theorem decode_latlon {raw : List Char} {g : BaseGroups} {gp : PosGroups}
    (hb : baseSearch raw = some g)
    (hc : (startsWithChar '!' (pyStrip g.g4) || startsWithChar '=' (pyStrip g.g4)) = true)
    (hp : posSearch (pyStrip g.g4) = some gp) :
    (decode raw).latitude =
      some (if gp.latDir = 'S' then -((natOfDigits gp.latDeg : ℚ) + floatDD gp.latMin / 60)
            else (natOfDigits gp.latDeg : ℚ) + floatDD gp.latMin / 60) ∧
    (decode raw).longitude =
      some (if gp.lonDir = 'W' then -((natOfDigits gp.lonDeg : ℚ) + floatDD gp.lonMin / 60)
            else (natOfDigits gp.lonDeg : ℚ) + floatDD gp.lonMin / 60) := by
  rw [decode_some hb rfl rfl, if_pos hc]
  exact ⟨parsePos_latitude _ hp, parsePos_longitude _ hp⟩


/-! ### Claim theorems -/

/-- C4: constructing a packet is a total function of the input line (one
record per line, no exception path: every partial operation of the model is
applied under its matcher's guard), and when the base address grammar does
not match anywhere in the line, every field keeps its zero-value default
except `raw`, which is the input line (`timestamp`, not modelled, is also
set).  First conjunct: `raw` is always preserved; second: the degraded
record is exactly the defaults. -/
theorem c4_never_raises_degrades (raw : List Char) :
    (decode raw).raw = raw ∧
      (baseSearch raw = none → decode raw = defaultPacket raw) :=
  ⟨decode_raw raw, fun hb => decode_none hb⟩

/-- C4 witness: a concrete line on which the base grammar fails. -/
theorem c4_degrades_witness :
    baseSearch ("garbage line with no structure".toList) = none ∧
      decode ("garbage line with no structure".toList) =
        defaultPacket ("garbage line with no structure".toList) :=
  ⟨by decide, (c4_never_raises_degrades _).2 (by decide)⟩

/-- C5: decoding the exact example line yields source `N0CALL`,
destination `APRS`, path `[WIDE1-1, WIDE2-1]`, type Position,
latitude `49 + 3.50/60 = 5887/120`, longitude `-(72 + 1.75/60) = -17287/240`,
and comment `-Test position`. -/
theorem c5_example_decode :
    (decode ("N0CALL>APRS,WIDE1-1,WIDE2-1:!4903.50N/07201.75W-Test position".toList)).source
        = "N0CALL".toList ∧
    (decode ("N0CALL>APRS,WIDE1-1,WIDE2-1:!4903.50N/07201.75W-Test position".toList)).destination
        = "APRS".toList ∧
    (decode ("N0CALL>APRS,WIDE1-1,WIDE2-1:!4903.50N/07201.75W-Test position".toList)).path
        = ["WIDE1-1".toList, "WIDE2-1".toList] ∧
    (decode ("N0CALL>APRS,WIDE1-1,WIDE2-1:!4903.50N/07201.75W-Test position".toList)).message_type
        = "Position" ∧
    (decode ("N0CALL>APRS,WIDE1-1,WIDE2-1:!4903.50N/07201.75W-Test position".toList)).latitude
        = some (5887 / 120 : ℚ) ∧
    (decode ("N0CALL>APRS,WIDE1-1,WIDE2-1:!4903.50N/07201.75W-Test position".toList)).longitude
        = some (-(17287 / 240) : ℚ) ∧
    (decode ("N0CALL>APRS,WIDE1-1,WIDE2-1:!4903.50N/07201.75W-Test position".toList)).comment
        = "-Test position".toList := by
  have hb : baseSearch ("N0CALL>APRS,WIDE1-1,WIDE2-1:!4903.50N/07201.75W-Test position".toList) =
      some ⟨"N0CALL".toList, "APRS".toList, ",WIDE1-1,WIDE2-1".toList,
        "!4903.50N/07201.75W-Test position".toList⟩ := by decide
  have hp : posSearch (pyStrip ("!4903.50N/07201.75W-Test position".toList)) =
      some ⟨"49".toList, "03.50".toList, 'N', "072".toList, "01.75".toList, 'W',
        "-Test position".toList⟩ := by decide
  have hll := decode_latlon hb (by decide) hp
  have hfa : floatDD ("03.50".toList) = (3 : ℚ) + (50 : ℚ) / 100 :=
    floatDD_eval ("03.50".toList) ("03".toList) ("50".toList) 3 50
      (by decide) (by decide) (by decide) (by decide)
  have hfb : floatDD ("01.75".toList) = (1 : ℚ) + (75 : ℚ) / 100 :=
    floatDD_eval ("01.75".toList) ("01".toList) ("75".toList) 1 75
      (by decide) (by decide) (by decide) (by decide)
  refine ⟨by decide, by decide, by decide, by decide, ?_, ?_, by decide⟩
  · rw [hll.1, if_neg (by decide : ¬ (('N' : Char) = 'S')),
      (by decide : natOfDigits ("49".toList) = 49), hfa]
    simp only [Option.some.injEq]
    norm_num
  · rw [hll.2, if_pos (by decide : ('W' : Char) = 'W'),
      (by decide : natOfDigits ("072".toList) = 72), hfb]
    simp only [Option.some.injEq]
    norm_num

/-- C7: the content dispatch is a strict prefix-ordered classification,
first rule wins — each type is assigned exactly when its prefix test
succeeds and every earlier test fails; `decode`'s `message_type` is this
classification of the trimmed content (empty when the base grammar fails);
and the example content starting with `!` but containing a later `>`
classifies as Position. -/
theorem c7_classifier_precedence :
    (∀ content : List Char,
      (classify content = "Position" ↔
        (startsWithChar '!' content || startsWithChar '=' content) = true) ∧
      (classify content = "Status" ↔
        (startsWithChar '!' content || startsWithChar '=' content) = false ∧
          startsWithChar '>' content = true) ∧
      (classify content = "Message" ↔
        (startsWithChar '!' content || startsWithChar '=' content) = false ∧
          startsWithChar '>' content = false ∧ startsWithChar ':' content = true) ∧
      (classify content = "Telemetry" ↔
        (startsWithChar '!' content || startsWithChar '=' content) = false ∧
          startsWithChar '>' content = false ∧ startsWithChar ':' content = false ∧
          startsWithChar 'T' content = true) ∧
      (classify content = "Other" ↔
        (startsWithChar '!' content || startsWithChar '=' content) = false ∧
          startsWithChar '>' content = false ∧ startsWithChar ':' content = false ∧
          startsWithChar 'T' content = false)) ∧
    (∀ raw : List Char, (decode raw).message_type =
      (match baseSearch raw with
       | none => ""
       | some g => classify (pyStrip g.g4))) ∧
    classify ("!4903.50N/07201.75W>test".toList) = "Position" ∧
    (decode ("N0CALL>APRS:!4903.50N/07201.75W>test".toList)).message_type = "Position" := by
  refine ⟨fun content => ?_, decode_message_type, by decide, by decide⟩
  cases hP : (startsWithChar '!' content || startsWithChar '=' content) <;>
    cases hS : startsWithChar '>' content <;>
    cases hM : startsWithChar ':' content <;>
    cases hT : startsWithChar 'T' content <;>
    simp [classify, hP, hS, hM, hT]

theorem parsePos_latlon_iff (p : Packet) (content : List Char)
    (h1 : p.latitude = none) (h2 : p.longitude = none) :
    ((parsePos p content).latitude = none ↔ (parsePos p content).longitude = none) := by
  cases hp : posSearch content with
  | none => rw [parsePos_none _ hp, h1, h2]
  | some gp =>
    rw [parsePos_latitude _ hp, parsePos_longitude _ hp]
    simp

/-- C8: for every input line, latitude and longitude of the decoded packet
are both present or both absent. -/
theorem c8_lat_lon_together (raw : List Char) :
    ((decode raw).latitude = none ↔ (decode raw).longitude = none) := by
  cases hb : baseSearch raw with
  | none =>
    rw [decode_none hb]
    simp [defaultPacket]
  | some g =>
    rw [decode_some hb rfl rfl]
    split_ifs <;> first | exact parsePos_latlon_iff _ _ rfl rfl | simp

/-- C9: the decoded path never contains an empty element; every element is
a nonempty run of the path characters `[A-Z0-9-*]` (in particular a frame
with no path segments yields the empty sequence, which has no elements). -/
theorem c9_path_elements (raw : List Char) (l : List Char)
    (h : l ∈ (decode raw).path) : l ≠ [] ∧ l.all isPathChar = true := by
  cases hb : baseSearch raw with
  | none =>
    rw [decode_none hb] at h
    simp [defaultPacket] at h
  | some g =>
    rw [decode_path hb] at h
    split_ifs at h with hg
    · simp at h
    · have hshape := baseSearch_g3 hb
      have hne : g.g3 ≠ [] := fun he => hg (by rw [he]; rfl)
      exact pathShape_elements hshape hne l h

/-- C9 witness: a concrete decoded path element. -/
theorem c9_path_witness :
    ("WIDE1-1".toList ∈
      (decode ("N0CALL>APRS,WIDE1-1,WIDE2-1:!4903.50N/07201.75W-Test position".toList)).path) ∧
    ("WIDE1-1".toList ≠ [] ∧ ("WIDE1-1".toList).all isPathChar = true) :=
  ⟨by decide,
    c9_path_elements ("N0CALL>APRS,WIDE1-1,WIDE2-1:!4903.50N/07201.75W-Test position".toList)
      ("WIDE1-1".toList) (by decide)⟩

/-- C10: the base grammar is searched unanchored inside the line — a line
whose leading characters cannot start a SOURCE still decodes from the
embedded frame: this input with a lowercase/punctuation prefix populates
source, destination, path and classifies the content. -/
theorem c10_unanchored_search :
    (decode ("xx! N0CALL>APRS,WIDE1-1:>On my way".toList)).source = "N0CALL".toList ∧
    (decode ("xx! N0CALL>APRS,WIDE1-1:>On my way".toList)).destination = "APRS".toList ∧
    (decode ("xx! N0CALL>APRS,WIDE1-1:>On my way".toList)).path = ["WIDE1-1".toList] ∧
    (decode ("xx! N0CALL>APRS,WIDE1-1:>On my way".toList)).message_type = "Status" ∧
    (decode ("xx! N0CALL>APRS,WIDE1-1:>On my way".toList)).comment = "On my way".toList :=
  ⟨by decide, by decide, by decide, by decide, by decide⟩


/-- C1 counterexample: on the content `=X1N/12345.67W!4903.50N/07201.75W-Test`
the position pattern matches at the `!`, whose tail is `-Test`, but the
second, independent search for `[NS]/DDDMM.hh[EW]` finds the earlier
occurrence `N/12345.67W`, so the comment is
`!4903.50N/07201.75W-Test`, not the tail after the matched longitude
field. -/
theorem c1_comment_tail_counterexample :
    posSearch ("=X1N/12345.67W!4903.50N/07201.75W-Test".toList) =
      some ⟨"49".toList, "03.50".toList, 'N', "072".toList, "01.75".toList, 'W',
        "-Test".toList⟩ ∧
    (parsePos (defaultPacket []) ("=X1N/12345.67W!4903.50N/07201.75W-Test".toList)).comment =
      "!4903.50N/07201.75W-Test".toList ∧
    "!4903.50N/07201.75W-Test".toList ≠ pyStrip ("-Test".toList) :=
  ⟨by decide, by decide, by decide⟩

/-- C1 (amended): on a successful position match the comment is everything
after the LEFTMOST occurrence of the `[NS]/DDDMM.hh[EW]` pattern in the
content, trimmed of surrounding whitespace — such an occurrence always
exists (the second search cannot fail), it lies at or before the
latitude-hemisphere/longitude field of the position match, and the tail
after the position match is always a suffix of the text the comment is
trimmed from; when the leftmost occurrence is strictly earlier the comment
strictly extends that tail (see the counterexample). -/
theorem c1_comment_tail_amended (p : Packet) (content : List Char) (g : PosGroups)
    (hnl : '\n' ∉ content) (h : posSearch content = some g) :
    ∃ tail, afterSearch content = some tail ∧
      (parsePos p content).comment = pyStrip tail ∧ g.rest <:+ tail := by
  obtain ⟨n, hn⟩ := reSearch_eq_some h
  obtain ⟨haft, hrest⟩ := posTry_afterTry hn
  rw [List.drop_drop] at haft
  obtain ⟨m, b, hm, hsearch, hb⟩ := reSearch_of_occur haft
  have hb2 : b = content.drop (m + 11) := by
    have hb1 := afterTry_eq_some hb
    rw [List.drop_drop] at hb1
    have hnl2 : '\n' ∉ content.drop (m + 11) := fun hc => hnl (List.drop_subset _ _ hc)
    rw [hb1, takeWhile_neNl_eq hnl2]
  refine ⟨b, hsearch, parsePos_comment p h hsearch, ?_⟩
  rw [hrest, List.drop_drop, hb2]
  exact List.drop_suffix_drop_left content (by omega)

/-- C1 witness: the amended statement at a concrete content where the
leftmost occurrence coincides with the position match. -/
theorem c1_comment_tail_witness :
    ('\n' ∉ ("!4903.50N/07201.75W-Test position".toList)) ∧
    posSearch ("!4903.50N/07201.75W-Test position".toList) =
      some ⟨"49".toList, "03.50".toList, 'N', "072".toList, "01.75".toList, 'W',
        "-Test position".toList⟩ ∧
    (∃ tail, afterSearch ("!4903.50N/07201.75W-Test position".toList) = some tail ∧
      (parsePos (defaultPacket []) ("!4903.50N/07201.75W-Test position".toList)).comment =
        pyStrip tail ∧
      ("-Test position".toList) <:+ tail) :=
  ⟨by decide, by decide,
    c1_comment_tail_amended (defaultPacket []) ("!4903.50N/07201.75W-Test position".toList)
      ⟨"49".toList, "03.50".toList, 'N', "072".toList, "01.75".toList, 'W',
        "-Test position".toList⟩ (by decide) (by decide)⟩

/-- C2 counterexample: the grammatically valid content `!9999.99S/17201.75E`
decodes to latitude `-(99 + 99.99/60) = -(201333/2000) ≈ -100.67`, which is
below -90, so the claimed range [-90, 90] fails. -/
theorem c2_range_counterexample :
    posSearch ("!9999.99S/17201.75E".toList) =
      some ⟨"99".toList, "99.99".toList, 'S', "172".toList, "01.75".toList, 'E', []⟩ ∧
    (parsePos (defaultPacket []) ("!9999.99S/17201.75E".toList)).latitude =
      some (-(201333 / 2000) : ℚ) ∧
    ¬ (-(90 : ℚ) ≤ -(201333 / 2000 : ℚ)) := by
  have hp : posSearch ("!9999.99S/17201.75E".toList) =
      some ⟨"99".toList, "99.99".toList, 'S', "172".toList, "01.75".toList, 'E', []⟩ := by
    decide
  refine ⟨hp, ?_, by norm_num⟩
  rw [parsePos_latitude (defaultPacket []) hp, if_pos (by decide : ('S' : Char) = 'S'),
    (by decide : natOfDigits ("99".toList) = 99),
    floatDD_eval ("99.99".toList) ("99".toList) ("99".toList) 99 99
      (by decide) (by decide) (by decide) (by decide)]
  simp only [Option.some.injEq]
  norm_num

/-- C2 (amended): for every content matching the position pattern, the
decoded latitude lies in [-201333/2000, 201333/2000] (that is ±100.6665,
the extreme of 99° 99.99 minutes) and the decoded longitude lies in
[-2001333/2000, 2001333/2000] (±1000.6665, the extreme of 999° 99.99
minutes); no validation to ±90 and ±180 is performed. -/
theorem c2_range_amended (p : Packet) (content : List Char) (g : PosGroups)
    (la lo : ℚ) (h : posSearch content = some g)
    (hla : (parsePos p content).latitude = some la)
    (hlo : (parsePos p content).longitude = some lo) :
    -(201333 / 2000 : ℚ) ≤ la ∧ la ≤ 201333 / 2000 ∧
      -(2001333 / 2000 : ℚ) ≤ lo ∧ lo ≤ 2001333 / 2000 := by
  rw [parsePos_latitude p h] at hla
  rw [parsePos_longitude p h] at hlo
  simp only [Option.some.injEq] at hla hlo
  obtain ⟨n, hn⟩ := reSearch_eq_some h
  obtain ⟨hd1, hd2, ⟨a, b, hab, ha1, ha2, hb1, hb2⟩, hdir, ho1, ho2,
    ⟨a2, b2, hab2, hc1, hc2, he1, he2⟩, hdir2⟩ := posTry_fields hn
  have hA : (natOfDigits g.latDeg : ℚ) ≤ 99 := by
    exact_mod_cast natOfDigits_le_of_two hd1 hd2
  have hB : (natOfDigits g.lonDeg : ℚ) ≤ 999 := by
    exact_mod_cast natOfDigits_le_of_three ho1 ho2
  have hm1 : floatDD g.latMin ≤ 9999 / 100 := floatDD_le hab ha1 ha2 hb1 hb2
  have hm2 : floatDD g.lonMin ≤ 9999 / 100 := floatDD_le hab2 hc1 hc2 he1 he2
  have hm1n : 0 ≤ floatDD g.latMin := floatDD_nonneg _
  have hm2n : 0 ≤ floatDD g.lonMin := floatDD_nonneg _
  have hA0 : (0 : ℚ) ≤ (natOfDigits g.latDeg : ℚ) := Nat.cast_nonneg _
  have hB0 : (0 : ℚ) ≤ (natOfDigits g.lonDeg : ℚ) := Nat.cast_nonneg _
  subst hla
  subst hlo
  refine ⟨?_, ?_, ?_, ?_⟩ <;> split_ifs <;> linarith

/-- C2 witness: the amended bounds at the extreme concrete content. -/
theorem c2_range_witness :
    -(201333 / 2000 : ℚ) ≤ -(201333 / 2000 : ℚ) ∧
      -(201333 / 2000 : ℚ) ≤ 201333 / 2000 ∧
      -(2001333 / 2000 : ℚ) ≤ 41287 / 240 ∧ (41287 / 240 : ℚ) ≤ 2001333 / 2000 :=
  c2_range_amended (defaultPacket []) ("!9999.99S/17201.75E".toList)
    ⟨"99".toList, "99.99".toList, 'S', "172".toList, "01.75".toList, 'E', []⟩
    (-(201333 / 2000)) (41287 / 240) (by decide)
    (by
      rw [parsePos_latitude (defaultPacket [])
          (by decide : posSearch ("!9999.99S/17201.75E".toList) =
            some ⟨"99".toList, "99.99".toList, 'S', "172".toList, "01.75".toList, 'E', []⟩),
        if_pos (by decide : ('S' : Char) = 'S'),
        (by decide : natOfDigits ("99".toList) = 99),
        floatDD_eval ("99.99".toList) ("99".toList) ("99".toList) 99 99
          (by decide) (by decide) (by decide) (by decide)]
      simp only [Option.some.injEq]
      norm_num)
    (by
      rw [parsePos_longitude (defaultPacket [])
          (by decide : posSearch ("!9999.99S/17201.75E".toList) =
            some ⟨"99".toList, "99.99".toList, 'S', "172".toList, "01.75".toList, 'E', []⟩),
        if_neg (by decide : ¬ (('E' : Char) = 'W')),
        (by decide : natOfDigits ("172".toList) = 172),
        floatDD_eval ("01.75".toList) ("01".toList) ("75".toList) 1 75
          (by decide) (by decide) (by decide) (by decide)]
      simp only [Option.some.injEq]
      norm_num)

/-- C3 counterexample: on `!0099.99N/00000.00E` the matched latitude
minutes are 99.99 ≥ 60, the decoded latitude is `0 + 99.99/60 = 3333/2000`,
and re-encoding gives whole degrees 1 (not the matched `00`) and minutes
39.99 (not the matched `99.99`), so the round-trip fails. -/
theorem c3_roundTrip_counterexample :
    posSearch ("!0099.99N/00000.00E".toList) =
      some ⟨"00".toList, "99.99".toList, 'N', "000".toList, "00.00".toList, 'E', []⟩ ∧
    (parsePos (defaultPacket []) ("!0099.99N/00000.00E".toList)).latitude =
      some (3333 / 2000 : ℚ) ∧
    reencodeDeg (3333 / 2000 : ℚ) = 1 ∧ (natOfDigits ("00".toList) : ℤ) = 0 ∧
    reencodeMin (3333 / 2000 : ℚ) = 3999 / 100 ∧
    floatDD ("99.99".toList) = 9999 / 100 ∧
    (1 : ℤ) ≠ 0 ∧ (3999 / 100 : ℚ) ≠ 9999 / 100 := by
  have hp : posSearch ("!0099.99N/00000.00E".toList) =
      some ⟨"00".toList, "99.99".toList, 'N', "000".toList, "00.00".toList, 'E', []⟩ := by
    decide
  have hf : floatDD ("99.99".toList) = (99 : ℚ) + (99 : ℚ) / 100 :=
    floatDD_eval ("99.99".toList) ("99".toList) ("99".toList) 99 99
      (by decide) (by decide) (by decide) (by decide)
  have hfl : ⌊(3333 / 2000 : ℚ)⌋ = 1 := by
    rw [Int.floor_eq_iff]
    norm_num
  refine ⟨hp, ?_, ?_, by decide, ?_, by rw [hf]; norm_num, by norm_num, by norm_num⟩
  · rw [parsePos_latitude (defaultPacket []) hp, if_neg (by decide : ¬ (('N' : Char) = 'S')),
      (by decide : natOfDigits ("00".toList) = 0), hf]
    simp only [Option.some.injEq]
    norm_num
  · rw [reencodeDeg, abs_of_nonneg (by norm_num : (0 : ℚ) ≤ 3333 / 2000), hfl]
  · rw [reencodeMin, abs_of_nonneg (by norm_num : (0 : ℚ) ≤ 3333 / 2000), hfl]
    push_cast
    norm_num

/-- C3 (amended): when each matched `MM.hh` minutes field is below 60
(which the pattern itself does not enforce), re-encoding the decoded
decimal degrees into whole degrees plus fractional minutes reproduces the
matched degree and minute fields exactly (hence to two decimal places);
for minutes ≥ 60 the round-trip fails (see the counterexample). -/
theorem c3_roundTrip_amended (p : Packet) (content : List Char) (g : PosGroups)
    (la lo : ℚ) (h : posSearch content = some g)
    (hla : (parsePos p content).latitude = some la)
    (hlo : (parsePos p content).longitude = some lo)
    (hm1 : floatDD g.latMin < 60) (hm2 : floatDD g.lonMin < 60) :
    reencodeDeg la = (natOfDigits g.latDeg : ℤ) ∧ reencodeMin la = floatDD g.latMin ∧
      reencodeDeg lo = (natOfDigits g.lonDeg : ℤ) ∧ reencodeMin lo = floatDD g.lonMin := by
  rw [parsePos_latitude p h] at hla
  rw [parsePos_longitude p h] at hlo
  simp only [Option.some.injEq] at hla hlo
  subst hla
  subst hlo
  have e1 := reencode_exact (natOfDigits g.latDeg) (floatDD_nonneg g.latMin) hm1
  have e2 := reencode_exact (natOfDigits g.lonDeg) (floatDD_nonneg g.lonMin) hm2
  refine ⟨?_, ?_, ?_, ?_⟩
  · split_ifs
    · exact e1.2.2.1
    · exact e1.1
  · split_ifs
    · exact e1.2.2.2
    · exact e1.2.1
  · split_ifs
    · exact e2.2.2.1
    · exact e2.1
  · split_ifs
    · exact e2.2.2.2
    · exact e2.2.1

/-- C3 witness: the amended round-trip at the concrete example content. -/
theorem c3_roundTrip_witness :
    reencodeDeg (5887 / 120 : ℚ) = (natOfDigits ("49".toList) : ℤ) ∧
    reencodeMin (5887 / 120 : ℚ) = floatDD ("03.50".toList) ∧
    reencodeDeg (-(17287 / 240) : ℚ) = (natOfDigits ("072".toList) : ℤ) ∧
    reencodeMin (-(17287 / 240) : ℚ) = floatDD ("01.75".toList) :=
  c3_roundTrip_amended (defaultPacket []) ("!4903.50N/07201.75W-Test position".toList)
    ⟨"49".toList, "03.50".toList, 'N', "072".toList, "01.75".toList, 'W',
      "-Test position".toList⟩
    (5887 / 120) (-(17287 / 240)) (by decide)
    (by
      rw [parsePos_latitude (defaultPacket [])
          (by decide : posSearch ("!4903.50N/07201.75W-Test position".toList) =
            some ⟨"49".toList, "03.50".toList, 'N', "072".toList, "01.75".toList, 'W',
              "-Test position".toList⟩),
        if_neg (by decide : ¬ (('N' : Char) = 'S')),
        (by decide : natOfDigits ("49".toList) = 49),
        floatDD_eval ("03.50".toList) ("03".toList) ("50".toList) 3 50
          (by decide) (by decide) (by decide) (by decide)]
      simp only [Option.some.injEq]
      norm_num)
    (by
      rw [parsePos_longitude (defaultPacket [])
          (by decide : posSearch ("!4903.50N/07201.75W-Test position".toList) =
            some ⟨"49".toList, "03.50".toList, 'N', "072".toList, "01.75".toList, 'W',
              "-Test position".toList⟩),
        if_pos (by decide : ('W' : Char) = 'W'),
        (by decide : natOfDigits ("072".toList) = 72),
        floatDD_eval ("01.75".toList) ("01".toList) ("75".toList) 1 75
          (by decide) (by decide) (by decide) (by decide)]
      simp only [Option.some.injEq]
      norm_num)
    (by
      rw [floatDD_eval ("03.50".toList) ("03".toList) ("50".toList) 3 50
        (by decide) (by decide) (by decide) (by decide)]
      norm_num)
    (by
      rw [floatDD_eval ("01.75".toList) ("01".toList) ("75".toList) 1 75
        (by decide) (by decide) (by decide) (by decide)]
      norm_num)

/-- C6 counterexample: at the zero coordinate `!0000.00S/00000.00W` the
hemisphere letters are S and W but the decoded latitude and longitude are
0, which is not negative, so "negative iff hemisphere is S/W" fails. -/
theorem c6_sign_counterexample :
    posSearch ("!0000.00S/00000.00W".toList) =
      some ⟨"00".toList, "00.00".toList, 'S', "000".toList, "00.00".toList, 'W', []⟩ ∧
    (parsePos (defaultPacket []) ("!0000.00S/00000.00W".toList)).latitude = some 0 ∧
    (parsePos (defaultPacket []) ("!0000.00S/00000.00W".toList)).longitude = some 0 ∧
    ¬ ((0 : ℚ) < 0) := by
  have hp : posSearch ("!0000.00S/00000.00W".toList) =
      some ⟨"00".toList, "00.00".toList, 'S', "000".toList, "00.00".toList, 'W', []⟩ := by
    decide
  have hf : floatDD ("00.00".toList) = (0 : ℚ) + (0 : ℚ) / 100 :=
    floatDD_eval ("00.00".toList) ("00".toList) ("00".toList) 0 0
      (by decide) (by decide) (by decide) (by decide)
  refine ⟨hp, ?_, ?_, by norm_num⟩
  · rw [parsePos_latitude (defaultPacket []) hp, if_pos (by decide : ('S' : Char) = 'S'),
      (by decide : natOfDigits ("00".toList) = 0), hf]
    simp only [Option.some.injEq]
    norm_num
  · rw [parsePos_longitude (defaultPacket []) hp, if_pos (by decide : ('W' : Char) = 'W'),
      (by decide : natOfDigits ("000".toList) = 0), hf]
    simp only [Option.some.injEq]
    norm_num

/-- C6 (amended): the hemisphere letters are N/S and E/W, and the sign law
holds away from zero — the decoded latitude is negative iff the hemisphere
is S and the encoded degrees+minutes magnitude is nonzero, and positive
iff the hemisphere is N and the magnitude is nonzero (a `0000.00` encoding
yields 0 under either letter); likewise for longitude with W and E. -/
theorem c6_sign_amended (p : Packet) (content : List Char) (g : PosGroups)
    (la lo : ℚ) (h : posSearch content = some g)
    (hla : (parsePos p content).latitude = some la)
    (hlo : (parsePos p content).longitude = some lo) :
    (g.latDir = 'N' ∨ g.latDir = 'S') ∧ (g.lonDir = 'E' ∨ g.lonDir = 'W') ∧
    (la < 0 ↔ g.latDir = 'S' ∧
      (natOfDigits g.latDeg : ℚ) + floatDD g.latMin / 60 ≠ 0) ∧
    (0 < la ↔ g.latDir = 'N' ∧
      (natOfDigits g.latDeg : ℚ) + floatDD g.latMin / 60 ≠ 0) ∧
    (lo < 0 ↔ g.lonDir = 'W' ∧
      (natOfDigits g.lonDeg : ℚ) + floatDD g.lonMin / 60 ≠ 0) ∧
    (0 < lo ↔ g.lonDir = 'E' ∧
      (natOfDigits g.lonDeg : ℚ) + floatDD g.lonMin / 60 ≠ 0) := by
  rw [parsePos_latitude p h] at hla
  rw [parsePos_longitude p h] at hlo
  simp only [Option.some.injEq] at hla hlo
  subst hla
  subst hlo
  obtain ⟨n, hn⟩ := reSearch_eq_some h
  obtain ⟨-, -, -, hdir, -, -, -, hdir2⟩ := posTry_fields hn
  have hM1 : 0 ≤ (natOfDigits g.latDeg : ℚ) + floatDD g.latMin / 60 :=
    add_nonneg (Nat.cast_nonneg _) (div_nonneg (floatDD_nonneg _) (by norm_num))
  have hM2 : 0 ≤ (natOfDigits g.lonDeg : ℚ) + floatDD g.lonMin / 60 :=
    add_nonneg (Nat.cast_nonneg _) (div_nonneg (floatDD_nonneg _) (by norm_num))
  refine ⟨hdir, hdir2, ?_, ?_, ?_, ?_⟩
  · rcases hdir with hd | hd <;> rw [hd]
    · rw [if_neg (by decide : ¬ (('N' : Char) = 'S'))]
      constructor
      · intro hlt
        exact absurd hlt (not_lt.mpr hM1)
      · rintro ⟨he, -⟩
        exact absurd he (by decide)
    · rw [if_pos rfl, neg_lt_zero]
      constructor
      · intro hlt
        exact ⟨rfl, ne_of_gt hlt⟩
      · rintro ⟨-, hne⟩
        exact lt_of_le_of_ne hM1 (Ne.symm hne)
  · rcases hdir with hd | hd <;> rw [hd]
    · rw [if_neg (by decide : ¬ (('N' : Char) = 'S'))]
      constructor
      · intro hlt
        exact ⟨rfl, ne_of_gt hlt⟩
      · rintro ⟨-, hne⟩
        exact lt_of_le_of_ne hM1 (Ne.symm hne)
    · rw [if_pos rfl, neg_pos]
      constructor
      · intro hlt
        exact absurd hlt (not_lt.mpr hM1)
      · rintro ⟨he, -⟩
        exact absurd he (by decide)
  · rcases hdir2 with hd | hd <;> rw [hd]
    · rw [if_neg (by decide : ¬ (('E' : Char) = 'W'))]
      constructor
      · intro hlt
        exact absurd hlt (not_lt.mpr hM2)
      · rintro ⟨he, -⟩
        exact absurd he (by decide)
    · rw [if_pos rfl, neg_lt_zero]
      constructor
      · intro hlt
        exact ⟨rfl, ne_of_gt hlt⟩
      · rintro ⟨-, hne⟩
        exact lt_of_le_of_ne hM2 (Ne.symm hne)
  · rcases hdir2 with hd | hd <;> rw [hd]
    · rw [if_neg (by decide : ¬ (('E' : Char) = 'W'))]
      constructor
      · intro hlt
        exact ⟨rfl, ne_of_gt hlt⟩
      · rintro ⟨-, hne⟩
        exact lt_of_le_of_ne hM2 (Ne.symm hne)
    · rw [if_pos rfl, neg_pos]
      constructor
      · intro hlt
        exact absurd hlt (not_lt.mpr hM2)
      · rintro ⟨he, -⟩
        exact absurd he (by decide)

/-- C6 witness: the amended sign law at a concrete S/W content. -/
theorem c6_sign_witness :
    (('S' : Char) = 'N' ∨ ('S' : Char) = 'S') ∧
    (('W' : Char) = 'E' ∨ ('W' : Char) = 'W') ∧
    ((-(5887 / 120) : ℚ) < 0 ↔ ('S' : Char) = 'S' ∧
      (natOfDigits ("49".toList) : ℚ) + floatDD ("03.50".toList) / 60 ≠ 0) ∧
    (0 < (-(5887 / 120) : ℚ) ↔ ('S' : Char) = 'N' ∧
      (natOfDigits ("49".toList) : ℚ) + floatDD ("03.50".toList) / 60 ≠ 0) ∧
    ((-(17287 / 240) : ℚ) < 0 ↔ ('W' : Char) = 'W' ∧
      (natOfDigits ("072".toList) : ℚ) + floatDD ("01.75".toList) / 60 ≠ 0) ∧
    (0 < (-(17287 / 240) : ℚ) ↔ ('W' : Char) = 'E' ∧
      (natOfDigits ("072".toList) : ℚ) + floatDD ("01.75".toList) / 60 ≠ 0) :=
  c6_sign_amended (defaultPacket []) ("!4903.50S/07201.75W".toList)
    ⟨"49".toList, "03.50".toList, 'S', "072".toList, "01.75".toList, 'W', []⟩
    (-(5887 / 120)) (-(17287 / 240)) (by decide)
    (by
      rw [parsePos_latitude (defaultPacket [])
          (by decide : posSearch ("!4903.50S/07201.75W".toList) =
            some ⟨"49".toList, "03.50".toList, 'S', "072".toList, "01.75".toList, 'W', []⟩),
        if_pos (by decide : ('S' : Char) = 'S'),
        (by decide : natOfDigits ("49".toList) = 49),
        floatDD_eval ("03.50".toList) ("03".toList) ("50".toList) 3 50
          (by decide) (by decide) (by decide) (by decide)]
      simp only [Option.some.injEq]
      norm_num)
    (by
      rw [parsePos_longitude (defaultPacket [])
          (by decide : posSearch ("!4903.50S/07201.75W".toList) =
            some ⟨"49".toList, "03.50".toList, 'S', "072".toList, "01.75".toList, 'W', []⟩),
        if_pos (by decide : ('W' : Char) = 'W'),
        (by decide : natOfDigits ("072".toList) = 72),
        floatDD_eval ("01.75".toList) ("01".toList) ("75".toList) 1 75
          (by decide) (by decide) (by decide) (by decide)]
      simp only [Option.some.injEq]
      norm_num)

end Aprs
